import Mathlib

/-!
Verification of the object-fetch subsystem of the Sapling/EdenFS backing
store against its natural-language specification.

The definitions below are a shallow embedding of the C++ sources:

* eden/fs/store/MemoryLocalStore.cpp and eden/fs/store/SqliteLocalStore.cpp
  (the two LocalStore backends and their WriteBatch implementations);
* eden/fs/store/hg/SaplingBackingStore.cpp (the blob/aux import pipelines,
  request preparation, object-id codecs, compareObjectsById, and the
  drop-all-pending path).

Bytes are modelled as natural numbers below 256, byte strings as lists of
naturals, and text as lists of character codes.  Stateful C++ code is
embedded as explicit state passing; promises (folly sinks) are modelled as
Option values (none = unfulfilled).  Parts of the repository that are only
declared, not defined, in the sources at hand (the HgProxyHash byte layout
and the import-queue drain) are modelled from the specification and marked
as such in their doc comments.
-/

namespace SaplingFS

/-! ## Basic byte and text model -/

/-- Byte strings (blob contents, keys, values, hashes) as lists of naturals. -/
abbrev Bytes := List Nat

/-- A node id: the 20-byte rev hash returned by HgProxyHash.byteHash, the key
the native adapter is addressed with. -/
abbrev Node := Bytes

/-! ## Local KV store, embedded from MemoryLocalStore.cpp / SqliteLocalStore.cpp

Both backends partition data by keyspace; we key the association list by the
pair (keyspace index, key bytes), which is equivalent to the per-keyspace
containers of the C++ code. -/

/-- A key qualified by its keyspace index. -/
abbrev KsKey := Nat × Bytes

/-- The visible contents of a LocalStore backend. -/
abbrev DB := List (KsKey × Bytes)

/-- Point lookup shared by both backends (MemoryLocalStore.get reads the map;
SqliteLocalStore.get runs a select by primary key). -/
def dbLookup (db : DB) (k : KsKey) : Option Bytes :=
  match db with
  | [] => none
  | (k0, v0) :: rest => if k0 = k then some v0 else dbLookup rest k

/-- MemoryLocalStore.put: assignment into the per-keyspace map, overwriting
any existing value for the key. -/
def memPut (db : DB) (k : KsKey) (v : Bytes) : DB :=
  match db with
  | [] => [(k, v)]
  | (k0, v0) :: rest => if k0 = k then (k, v) :: rest else (k0, v0) :: memPut rest k v

/-- MemoryLocalStore.get. -/
def memGet (db : DB) (k : KsKey) : Option Bytes :=
  dbLookup db k

/-- SqliteLocalStore.put: an insert-or-ignore statement; when a row with the
key already exists the statement is a no-op and the stored value is kept. -/
def sqlitePut (db : DB) (k : KsKey) (v : Bytes) : DB :=
  if (dbLookup db k).isSome then db else db ++ [(k, v)]

/-- SqliteLocalStore.get. -/
def sqliteGet (db : DB) (k : KsKey) : Option Bytes :=
  dbLookup db k

/-- SqliteLocalStore.hasKey. -/
def sqliteHasKey (db : DB) (k : KsKey) : Bool :=
  (dbLookup db k).isSome

/-! ## Write batches, embedded from SqliteLocalStore.cpp / MemoryLocalStore.cpp

SqliteWriteBatch keeps a per-keyspace vector of (key, value) pairs; flush
runs BEGIN, replays every buffered pair as an insert-or-ignore statement in
keyspace-major order, COMMIT on success, and ROLLBACK followed by a rethrow
when any statement throws.  The connection is modelled with an explicit
transaction: statements inside a transaction act on a working copy that
becomes visible only at COMMIT. -/

/-- The buffered contents of a SqliteWriteBatch: one list of (key, value)
pairs per keyspace index. -/
structure SqliteWriteBatch where
  buffer : List (List (Bytes × Bytes))
  deriving DecidableEq, Repr

/-- SqliteWriteBatch.put: append the pair to the buffer of its keyspace. -/
def sqliteBatchPut (b : SqliteWriteBatch) (ks : Nat) (key v : Bytes) :
    SqliteWriteBatch :=
  { buffer := b.buffer.set ks (b.buffer.getD ks [] ++ [(key, v)]) }

/-- The flush order of a batch: keyspaces in index order, pairs in insertion
order, each key qualified by its keyspace. -/
def flushItems (b : SqliteWriteBatch) : List (KsKey × Bytes) :=
  (b.buffer.enum.map (fun p => p.2.map (fun q => ((p.1, q.1), q.2)))).flatten

/-- A SQLite connection: the committed database plus, inside a transaction,
the uncommitted working copy. -/
structure SqliteConn where
  committed : DB
  txn : Option DB
  deriving DecidableEq, Repr

/-- Running BEGIN: open a working copy of the committed state. -/
def beginTxn (c : SqliteConn) : SqliteConn :=
  { c with txn := some c.committed }

/-- Running COMMIT: publish the working copy. -/
def commitTxn (c : SqliteConn) : SqliteConn :=
  match c.txn with
  | some w => { committed := w, txn := none }
  | none => c

/-- Running ROLLBACK: discard the working copy. -/
def rollbackTxn (c : SqliteConn) : SqliteConn :=
  { c with txn := none }

/-- One insert-or-ignore statement on the connection: inside a transaction it
updates the working copy, otherwise (autocommit, as in SqliteLocalStore.put)
the committed state. -/
def txnStep (c : SqliteConn) (k : KsKey) (v : Bytes) : SqliteConn :=
  match c.txn with
  | some w => { c with txn := some (sqlitePut w k v) }
  | none => { c with committed := sqlitePut c.committed k v }

/-- The statement loop of SqliteWriteBatch.flush.  An I/O failure is injected
as the index of the statement that throws (none: no failure); the Bool of the
result records whether an exception escaped the loop. -/
def runFlushItems (c : SqliteConn) (items : List (KsKey × Bytes))
    (failAt : Option Nat) : SqliteConn × Bool :=
  match items, failAt with
  | [], _ => (c, false)
  | _ :: _, some 0 => (c, true)
  | it :: rest, some (n + 1) => runFlushItems (txnStep c it.1 it.2) rest (some n)
  | it :: rest, none => runFlushItems (txnStep c it.1 it.2) rest none

/-- SqliteWriteBatch.flush: BEGIN, replay the buffer, COMMIT; on an exception
ROLLBACK and rethrow (the Bool result). -/
def sqliteFlush (c : SqliteConn) (b : SqliteWriteBatch) (failAt : Option Nat) :
    SqliteConn × Bool :=
  match runFlushItems (beginTxn c) (flushItems b) failAt with
  | (c2, true) => (rollbackTxn c2, true)
  | (c2, false) => (commitTxn c2, false)

/-- Replaying a list of insert-or-ignore statements on a plain database. -/
def applyItems (db : DB) (items : List (KsKey × Bytes)) : DB :=
  items.foldl (fun d p => sqlitePut d p.1 p.2) db

/-- MemoryWriteBatch.flush: replay every buffered pair into the store map via
MemoryLocalStore.put. -/
def memFlushBatch (store : DB) (buf : DB) : DB :=
  buf.foldl (fun s p => memPut s p.1 p.2) store

/-! ## compareObjectsById, embedded from SaplingBackingStore.cpp lines 1360-1391

Object ids are opaque byte strings; bytesEqual is equality of the lists.
HgProxyHash.load is defined outside the sources at hand, so the loaded proxy
hashes enter as a parameter mapping each object id to its proxy hash. -/

/-- An object id: opaque bytes, either an embedded proxy hash or an indirect
key into the HgProxyHash keyspace. -/
abbrev ObjectId := Bytes

/-- The (revHash, path) pair addressed by an object id. -/
structure ProxyHash where
  revHash : Bytes
  path : Bytes
  deriving DecidableEq, Repr

/-- Result of comparing two object ids. -/
inductive ObjectComparison where
  | Identical
  | Different
  | Unknown
  deriving DecidableEq, Repr

/-- SaplingBackingStore.compareObjectsById.  The bijective flag is the
hgBijectiveBlobIds config value; load stands for HgProxyHash.load against the
local store. -/
def compareObjectsById (bijective : Bool) (load : ObjectId → ProxyHash)
    (one two : ObjectId) : ObjectComparison :=
  if one = two then .Identical
  else if bijective then .Different
  else if (load one).revHash = (load two).revHash then .Identical
  else .Unknown

/-! ## Hex codec, as used by folly::hexlify / folly::unhexlify and Hash20 -/

/-- Lowercase hex digit character code of a value below 16. -/
def hexDigit (n : Nat) : Nat :=
  if n < 10 then 48 + n else 87 + n

/-- Bytes to lowercase hex text (character codes), as folly::hexlify. -/
def hexlify : Bytes → List Nat
  | [] => []
  | b :: rest => hexDigit (b / 16) :: hexDigit (b % 16) :: hexlify rest

/-- Value of one hex character (digits, lowercase and uppercase letters), or
none for a non-hex character. -/
def hexVal (c : Nat) : Option Nat :=
  if 48 ≤ c ∧ c ≤ 57 then some (c - 48)
  else if 97 ≤ c ∧ c ≤ 102 then some (c - 87)
  else if 65 ≤ c ∧ c ≤ 70 then some (c - 55)
  else none

/-- Hex text to bytes, failing on odd length or a non-hex character, as
folly::unhexlify (whose failure the C++ callers surface as an exception). -/
def unhexlify : List Nat → Option Bytes
  | [] => some []
  | [_] => none
  | c1 :: c2 :: rest =>
    match hexVal c1, hexVal c2, unhexlify rest with
    | some h, some l, some bs => some ((16 * h + l) :: bs)
    | _, _, _ => none

/-! ## Object id and root id codecs, from SaplingBackingStore.cpp lines
1393-1450

The HgProxyHash byte layout itself is declared outside the sources at hand;
its three helpers are modelled from the specification. -/

/-- Modelled from the spec: HgProxyHash.makeEmbeddedProxyHash1 is missing
from the sources; the spec gives the embedded-with-path encoding as the
20-byte rev hash followed by the path bytes. -/
def makeEmbeddedProxyHash1 (rev path : Bytes) : ObjectId :=
  rev ++ path

/-- Modelled from the spec: HgProxyHash.makeEmbeddedProxyHash2 is missing
from the sources; the spec gives the embedded-hash-only encoding as the
20-byte rev hash alone, recognized by length. -/
def makeEmbeddedProxyHash2 (rev : Bytes) : ObjectId :=
  rev

/-- Modelled from the spec: HgProxyHash.tryParseEmbeddedProxyHash is missing
from the sources.  Per the spec an indirect key has fixed length 32 and is
not embedded; a 20-byte id is embedded-hash-only; a longer id is
embedded-with-path. -/
def tryParseEmbeddedProxyHash (id : ObjectId) : Option ProxyHash :=
  if id.length = 32 then none
  else if id.length = 20 then some ⟨id, []⟩
  else if 20 < id.length then some ⟨id.take 20, id.drop 20⟩
  else none

/-- Character codes of the text "proxy-". -/
def proxyTag : List Nat :=
  [112, 114, 111, 120, 121, 45]

/-- SaplingBackingStore.staticParseObjectId; none models the
std::invalid_argument throws (including the Hash20 constructor rejecting
non-hex input). -/
def staticParseObjectId (s : List Nat) : Option ObjectId :=
  if s.take 6 = proxyTag then
    if s.length = 46 then unhexlify (s.drop 6) else none
  else if s.length = 40 then
    (unhexlify s).map makeEmbeddedProxyHash2
  else if s.length < 41 then none
  else if s.getD 40 0 ≠ 58 then none
  else
    match unhexlify (s.take 40) with
    | some rev => some (makeEmbeddedProxyHash1 rev (s.drop 41))
    | none => none

/-- SaplingBackingStore.staticRenderObjectId. -/
def staticRenderObjectId (id : ObjectId) : List Nat :=
  match tryParseEmbeddedProxyHash id with
  | some ph =>
    if ph.path = [] then hexlify ph.revHash
    else hexlify ph.revHash ++ 58 :: ph.path
  | none => proxyTag ++ hexlify id

/-- Character codes of the rendered all-zero hash (kZeroHash.toString). -/
def zeroHashHex : List Nat :=
  List.replicate 40 48

/-- Modelled from the spec: hash20FromThrift is missing from the sources;
per the spec and the comment in parseRootId it accepts a 20-byte binary or a
40-character hex revision id, producing the 20 raw hash bytes. -/
def hash20FromThrift (s : List Nat) : Option Bytes :=
  if s.length = 20 then some s
  else if s.length = 40 then unhexlify s
  else none

/-- SaplingBackingStore.parseRootId: canonicalize to the 40-character hex
form (Hash20.toString renders lowercase hex). -/
def parseRootId (s : List Nat) : Option (List Nat) :=
  (hash20FromThrift s).map hexlify

/-- SaplingBackingStore.renderRootId: a 40-character value is decoded to the
20-byte binary form; an empty (default-constructed) value renders as the
decoded all-zero hash; any other size fails the XCHECK. -/
def renderRootId (value : List Nat) : Option (List Nat) :=
  if value.length = 40 then unhexlify value
  else if value.length = 0 then unhexlify zeroHashHex
  else none

/-! ## Import requests and the fetcher pipelines, from SaplingBackingStore.cpp

A promise (folly sink) is modelled as an Option: none while unfulfilled.  A
fulfilled blob promise carries some (some b) for a blob b, or some none for
an exception.  The native adapter is abstracted as one view per fetch mode,
mapping a node id to the blob it would return (none: miss or error, which
leave the promise untouched in the batch callback).  By the grouping in
prepareRequests all requests sharing a node id receive the same result, so a
per-mode view is faithful for one dequeued batch. -/

/-- Blob contents. -/
abbrev Blob := Bytes

/-- Aux datum contents (sha1/blake3/size record, abstracted to bytes). -/
abbrev Aux := Bytes

/-- A fetch cause tag (ObjectFetchContext::Cause). -/
abbrev Cause := Nat

/-- ObjectFetchContext::FetchedSource. -/
inductive FetchedSource where
  | Local
  | Remote
  | Unknown
  deriving DecidableEq, Repr

/-- ObjectFetchContext::FetchResult. -/
inductive FetchResult where
  | Success
  | SuccessInRetry
  | Failure
  deriving DecidableEq, Repr

/-- A blob import request: object id, node id (proxyHash.byteHash), cause,
its sink, and the counters recorded for it. -/
structure ImportReq where
  hash : ObjectId
  node : Node
  cause : Cause
  promise : Option (Option Blob) := none
  fetchedSource : Option FetchedSource := none
  fetchResult : Option FetchResult := none
  deriving DecidableEq, Repr

/-! ### prepareRequests, lines 935-1044

Requests are grouped by node id; the adapter request list is built from each
group deduplicating by fetch cause (the comment in the source explains that
requests with the same node id but different causes each go to the
adapter). -/

/-- Insert one request into the group of its node id (the F14 map emplace /
push-back of the source, modelled on an association list). -/
def insertReq (m : List (Node × List ImportReq)) (req : ImportReq) :
    List (Node × List ImportReq) :=
  match m with
  | [] => [(req.node, [req])]
  | (n, g) :: rest =>
    if n = req.node then (n, g ++ [req]) :: rest
    else (n, g) :: insertReq rest req

/-- The grouping loop of prepareRequests. -/
def buildRequestsMap : List ImportReq → List (Node × List ImportReq) →
    List (Node × List ImportReq)
  | [], m => m
  | req :: rest, m => buildRequestsMap rest (insertReq m req)

/-- The per-group dedupe-by-cause loop of prepareRequests: seen holds the
causes already emitted for this node id. -/
def dedupeGroupByCause (n : Node) : List ImportReq → List Cause →
    List (Node × Cause)
  | [], _ => []
  | req :: rest, seen =>
    if req.cause ∈ seen then dedupeGroupByCause n rest seen
    else (n, req.cause) :: dedupeGroupByCause n rest (req.cause :: seen)

/-- The outer loop building the adapter request list from the grouped map. -/
def flattenRequests : List (Node × List ImportReq) → List (Node × Cause)
  | [] => []
  | (n, g) :: rest => dedupeGroupByCause n g [] ++ flattenRequests rest

/-- SaplingBackingStore.prepareRequests: the grouped map and the final
adapter request list (node id plus cause per entry). -/
def prepareRequests (reqs : List ImportReq) :
    (List (Node × List ImportReq)) × List (Node × Cause) :=
  let m := buildRequestsMap reqs []
  (m, flattenRequests m)

/-- Lookup of a node id group in the grouped map. -/
def requestsGroup (m : List (Node × List ImportReq)) (n : Node) :
    List ImportReq :=
  match m with
  | [] => []
  | (n0, g) :: rest => if n0 = n then g else requestsGroup rest n

/-- The success path of the getBlobBatch callback: every import request in
the node id group is resolved with a shared copy of the one result. -/
def resolveGroup (g : List ImportReq) (b : Blob) : List ImportReq :=
  g.map (fun req => { req with promise := some (some b) })

/-! ### processBlobImportRequests and retryGetBlob, lines 496-684

Embedded for the allow-remote-in-one-batch config off, as the claim fixes.
Each stage applies the view of its fetch mode; a hit fulfils the promise,
a miss or adapter error leaves it untouched. -/

/-- One getBlobBatch call under a fetch-mode view. -/
def getBlobBatchRun (view : Node → Option Blob) (reqs : List ImportReq) :
    List ImportReq :=
  reqs.map fun r =>
    match view r.node with
    | some b => { r with promise := some (some b) }
    | none => r

/-- The requests fulfilled by the LocalOnly batch, with their counters
(fetched-source Local, result Success). -/
def localFulfilledRequests (localView : Node → Option Blob)
    (reqs : List ImportReq) : List ImportReq :=
  ((getBlobBatchRun localView reqs).filter (fun r => r.promise.isSome)).map
    (fun r => { r with fetchedSource := some .Local,
                       fetchResult := some .Success })

/-- The retryRequest vector: requests the LocalOnly batch left unfulfilled,
which are then handed to the RemoteOnly batch. -/
def retryRequestList (localView : Node → Option Blob)
    (reqs : List ImportReq) : List ImportReq :=
  (getBlobBatchRun localView reqs).filter (fun r => r.promise.isNone)

/-- SaplingBackingStore.retryGetBlob: after a flush, try LocalOnly, fall back
to RemoteOnly, and record SuccessInRetry or Failure; the fetched-source is
derived from the final fetch mode (Local or Remote). -/
def retryGetBlob (retryLocal retryRemote : Node → Option Blob)
    (r : ImportReq) : ImportReq :=
  match retryLocal r.node with
  | some b => { r with promise := some (some b),
                       fetchedSource := some .Local,
                       fetchResult := some .SuccessInRetry }
  | none =>
    match retryRemote r.node with
    | some b => { r with promise := some (some b),
                         fetchedSource := some .Remote,
                         fetchResult := some .SuccessInRetry }
    | none => { r with promise := some none,
                       fetchedSource := some .Remote,
                       fetchResult := some .Failure }

/-- SaplingBackingStore.processBlobImportRequests with allowRemoteGetBatch
off: LocalOnly batch, RemoteOnly batch over the survivors, then the
single-item retry for any sink still unfulfilled.  The retry views stand for
the adapter state after the flush inside retryGetBlob. -/
def processBlobImportRequests
    (localView remoteView retryLocal retryRemote : Node → Option Blob)
    (reqs : List ImportReq) : List ImportReq :=
  localFulfilledRequests localView reqs ++
    (getBlobBatchRun remoteView (retryRequestList localView reqs)).map fun r =>
      if r.promise.isSome then
        { r with fetchedSource := some .Remote, fetchResult := some .Success }
      else retryGetBlob retryLocal retryRemote r

/-! ### Aux-data pipelines, lines 1046-1198

Blob-aux and tree-aux promises distinguish a null success (setValue nullptr)
from an error, so a fulfilled promise carries Except: ok (some a) for a
datum, ok none for the null value.  The two process functions are textually
parallel in the source; both instantiate the same pipeline. -/

/-- The fulfilled value of an aux promise: a datum, the null value
(setValue nullptr), or an exception. -/
inductive AuxValue where
  | value : Aux → AuxValue
  | nullValue : AuxValue
  | failed : AuxValue
  deriving DecidableEq, Repr

/-- An aux-data import request. -/
structure AuxReq where
  hash : ObjectId
  node : Node
  cause : Cause
  promise : Option AuxValue := none
  fetchedSource : Option FetchedSource := none
  deriving DecidableEq, Repr

/-- One aux-data batch call under a fetch-mode view. -/
def getAuxDataBatchRun (view : Node → Option Aux) (reqs : List AuxReq) :
    List AuxReq :=
  reqs.map fun r =>
    match view r.node with
    | some a => { r with promise := some (.value a) }
    | none => r

/-- The shared aux pipeline with allowRemoteGetBatch off: LocalOnly batch,
RemoteOnly batch over the survivors, and for every sink still unfulfilled a
null-value resolution; no fetch of the underlying blob or tree appears in
this path (the source comments that triggering one could deadlock the worker
pool). -/
def processAuxImportRequests (localView remoteView : Node → Option Aux)
    (reqs : List AuxReq) : List AuxReq :=
  let afterLocal := getAuxDataBatchRun localView reqs
  ((afterLocal.filter (fun r => r.promise.isSome)).map
      (fun r => { r with fetchedSource := some .Local })) ++
    (getAuxDataBatchRun remoteView
        (afterLocal.filter (fun r => r.promise.isNone))).map fun r =>
      if r.promise.isSome then { r with fetchedSource := some .Remote }
      else { r with promise := some .nullValue }

/-- SaplingBackingStore.processBlobAuxImportRequests. -/
def processBlobAuxImportRequests (localView remoteView : Node → Option Aux)
    (reqs : List AuxReq) : List AuxReq :=
  processAuxImportRequests localView remoteView reqs

/-- SaplingBackingStore.processTreeAuxImportRequests. -/
def processTreeAuxImportRequests (localView remoteView : Node → Option Aux)
    (reqs : List AuxReq) : List AuxReq :=
  processAuxImportRequests localView remoteView reqs

/-! ### dropAllPendingRequestsFromQueue, lines 2544-2576 -/

/-- The kind of a pending import request. -/
inductive ImportKind where
  | blob
  | tree
  | blobAux
  | treeAux
  deriving DecidableEq, Repr

/-- The fulfilled value of a sink as seen by the drop path: a success or a
failure carrying a message. -/
inductive SinkValue where
  | ok : SinkValue
  | failedWith : List Nat → SinkValue
  deriving DecidableEq, Repr

/-- A pending request as seen by the drop path: its kind and its sink
(none while unfulfilled). -/
structure PendingReq where
  kind : ImportKind
  sink : Option SinkValue := none
  deriving DecidableEq, Repr

/-- Character codes of the text "Request forcibly dropped". -/
def droppedMessage : List Nat :=
  [82, 101, 113, 117, 101, 115, 116, 32, 102, 111, 114, 99, 105, 98, 108,
   121, 32, 100, 114, 111, 112, 112, 101, 100]

/-- The dropBlobImportRequest helper: fail the sink if still unfulfilled. -/
def dropBlobImportRequest (r : PendingReq) : PendingReq :=
  if r.sink.isSome then r
  else { r with sink := some (.failedWith droppedMessage) }

/-- The dropTreeImportRequest helper. -/
def dropTreeImportRequest (r : PendingReq) : PendingReq :=
  if r.sink.isSome then r
  else { r with sink := some (.failedWith droppedMessage) }

/-- Modelled from the spec: SaplingImportRequestQueue.combineAndClearRequestQueues
is missing from the sources; per the spec the combine-and-clear operation
returns all outstanding requests of every kind. -/
def combineAndClearRequestQueues (queue : List PendingReq) : List PendingReq :=
  queue

/-- SaplingBackingStore.dropAllPendingRequestsFromQueue: drain the queue,
fail blob and tree requests, and return how many requests were pending. -/
def dropAllPendingRequestsFromQueue (queue : List PendingReq) :
    List PendingReq × Nat :=
  let requestVec := combineAndClearRequestQueues queue
  (requestVec.map (fun r =>
      match r.kind with
      | .blob => dropBlobImportRequest r
      | .tree => dropTreeImportRequest r
      | .blobAux => r
      | .treeAux => r),
   requestVec.length)

/-! ### getBlobAuxData fast path, lines 1773-1815 -/

/-- ObjectFetchContext::Origin. -/
inductive Origin where
  | FromDiskCache
  | FromNetworkFetch
  | NotFetched
  deriving DecidableEq, Repr

/-- The value and origin a getBlobAuxData caller receives. -/
structure AuxFetchOutcome where
  aux : Option Aux
  origin : Origin
  deriving DecidableEq, Repr

/-- SaplingBackingStore.getBlobAuxDataEnqueue: with the fetchHgAuxMetadata
config off, resolve immediately with a null datum and origin NotFetched,
enqueueing nothing; otherwise enqueue the request and the result comes from
the queue with origin FromNetworkFetch.  The second component lists every
request the call enqueued. -/
def getBlobAuxDataEnqueue (fetchHgAuxMetadata : Bool)
    (queueFetch : Node → Option Aux) (n : Node) :
    AuxFetchOutcome × List Node :=
  if fetchHgAuxMetadata = false then (⟨none, .NotFetched⟩, [])
  else (⟨queueFetch n, .FromNetworkFetch⟩, [n])

/-- SaplingBackingStore.getBlobAuxData: local-only adapter lookup first
(origin FromDiskCache on a hit), then the enqueue path. -/
def getBlobAuxData (fetchHgAuxMetadata : Bool)
    (localAux queueFetch : Node → Option Aux) (n : Node) :
    AuxFetchOutcome × List Node :=
  match localAux n with
  | some a => (⟨some a, .FromDiskCache⟩, [])
  | none => getBlobAuxDataEnqueue fetchHgAuxMetadata queueFetch n

end SaplingFS

/-! ## Theorems -/

namespace SaplingFS

/-- Claim C3: compareObjectsById returns Identical when the id bytes are
equal; when the bytes differ and the bijective-blob-ids policy is enabled it
returns Different; otherwise it compares the loaded proxy hashes and returns
Identical when the rev hashes are equal and Unknown when they differ; and
comparing any id with itself yields Identical. -/
theorem c3_compareObjectsById_spec (bijective : Bool)
    (load : ObjectId → ProxyHash) (one two : ObjectId) :
    (one = two → compareObjectsById bijective load one two = .Identical)
    ∧ (one ≠ two → bijective = true →
        compareObjectsById bijective load one two = .Different)
    ∧ (one ≠ two → bijective = false →
        (load one).revHash = (load two).revHash →
        compareObjectsById bijective load one two = .Identical)
    ∧ (one ≠ two → bijective = false →
        (load one).revHash ≠ (load two).revHash →
        compareObjectsById bijective load one two = .Unknown)
    ∧ compareObjectsById bijective load one one = .Identical := by
  refine ⟨?_, ?_, ?_, ?_, ?_⟩ <;> intros <;>
    simp_all [compareObjectsById]

/-- Witness for C3 at concrete inputs: ids [0] and [1] under the bijective
policy compare as Different, and [0] compares to itself as Identical. -/
theorem c3_compareObjectsById_spec_witness :
    compareObjectsById true (fun _ => ⟨[], []⟩) [0] [1] = .Different
    ∧ compareObjectsById true (fun _ => ⟨[], []⟩) [0] [0] = .Identical := by
  refine ⟨?_, ?_⟩
  · exact (c3_compareObjectsById_spec true (fun _ => ⟨[], []⟩) [0] [1]).2.1
      (by decide) rfl
  · exact (c3_compareObjectsById_spec true (fun _ => ⟨[], []⟩) [0] [1]).2.2.2.2

/-- Claim C5, counterexample: the claim asserts last-writer-wins for both
backends, but SqliteLocalStore.put is an insert-or-ignore statement, so after
two puts of the same key the first value is still returned. -/
theorem c5_put_lww_counterexample :
    sqliteGet (sqlitePut (sqlitePut [] (0, [1]) [2]) (0, [1]) [3]) (0, [1])
      = some [2]
    ∧ ([2] : Bytes) ≠ [3] := by
  constructor
  · rfl
  · decide

/-- Key/value store lemma: a put whose key is already present leaves the
SQLite backend unchanged. -/
theorem sqlitePut_ignored_of_present (db : DB) (k : KsKey) (v : Bytes)
    (h : (dbLookup db k).isSome) : sqlitePut db k v = db := by
  simp [sqlitePut, h]

/-- Key/value store lemma: lookup after memPut finds the new value. -/
theorem memGet_memPut_self (db : DB) (k : KsKey) (v : Bytes) :
    memGet (memPut db k v) k = some v := by
  induction db with
  | nil => simp [memGet, memPut, dbLookup]
  | cons hd tl ih =>
    obtain ⟨k0, v0⟩ := hd
    by_cases hk : k0 = k
    · simp [memGet, memPut, hk, dbLookup]
    · simpa [memGet, memPut, hk, dbLookup] using ih

/-- Key/value store lemma: appending a fresh row is found by lookup only at
its own key. -/
theorem dbLookup_append_single (db : DB) (k : KsKey) (v : Bytes)
    (h : dbLookup db k = none) : dbLookup (db ++ [(k, v)]) k = some v := by
  induction db with
  | nil => simp [dbLookup]
  | cons hd tl ih =>
    obtain ⟨k0, v0⟩ := hd
    by_cases hk : k0 = k
    · simp [dbLookup, hk] at h
    · simp only [dbLookup, hk, if_false, List.cons_append] at h ⊢
      exact ih h

/-- Claim C5, amended: the in-memory backend is last-writer-wins per key,
while the SQLite backend is first-writer-wins per key: its put is
insert-or-ignore, so a second put of the same key is a no-op and a put onto
a previously absent key stores that first value. -/
theorem c5_put_semantics (db : DB) (k : KsKey) (v1 v2 : Bytes) :
    memGet (memPut (memPut db k v1) k v2) k = some v2
    ∧ sqliteGet (sqlitePut (sqlitePut db k v1) k v2) k
        = sqliteGet (sqlitePut db k v1) k
    ∧ (sqliteHasKey db k = false →
        sqliteGet (sqlitePut (sqlitePut db k v1) k v2) k = some v1) := by
  refine ⟨memGet_memPut_self _ k v2, ?_, ?_⟩
  · cases h : dbLookup db k with
    | some v0 =>
      have h1 : sqlitePut db k v1 = db := by
        simp [sqlitePut, h]
      have h2 : sqlitePut db k v2 = db := by
        simp [sqlitePut, h]
      rw [h1, h2]
    | none =>
      have h1 : sqlitePut db k v1 = db ++ [(k, v1)] := by
        simp [sqlitePut, h]
      have hfound : dbLookup (db ++ [(k, v1)]) k = some v1 :=
        dbLookup_append_single db k v1 h
      rw [h1, sqlitePut_ignored_of_present _ k v2 (by simp [hfound])]
  · intro hno
    have h : dbLookup db k = none := by
      simpa [sqliteHasKey, Option.isSome_iff_exists] using hno
    have h1 : sqlitePut db k v1 = db ++ [(k, v1)] := by
      simp [sqlitePut, h]
    have hfound : dbLookup (db ++ [(k, v1)]) k = some v1 :=
      dbLookup_append_single db k v1 h
    rw [h1, sqlitePut_ignored_of_present _ k v2 (by simp [hfound])]
    simpa [sqliteGet] using hfound

/-- Witness for C5 amended at concrete inputs: on the empty store, key (0,[1])
with values [2] then [3]. -/
theorem c5_put_semantics_witness :
    memGet (memPut (memPut [] (0, [1]) [2]) (0, [1]) [3]) (0, [1]) = some [3]
    ∧ sqliteGet (sqlitePut (sqlitePut [] (0, [1]) [2]) (0, [1]) [3]) (0, [1])
        = some [2] := by
  have h := c5_put_semantics [] (0, [1]) [2] [3]
  refine ⟨h.1, ?_⟩
  have h2 := h.2.2 (by decide)
  exact h2

/-- Transaction invariant: while a transaction is open, the statement loop of
flush never touches the committed state, and on a clean run the working copy
ends as the replay of all items. -/
theorem runFlushItems_preserves (items : List (KsKey × Bytes)) :
    ∀ (c : SqliteConn) (w : DB) (failAt : Option Nat), c.txn = some w →
    (runFlushItems c items failAt).1.committed = c.committed
    ∧ ∃ w2, (runFlushItems c items failAt).1.txn = some w2
        ∧ ((runFlushItems c items failAt).2 = false → w2 = applyItems w items) := by
  induction items with
  | nil =>
    intro c w failAt h
    exact ⟨rfl, w, h, fun _ => rfl⟩
  | cons it rest ih =>
    intro c w failAt h
    have hstep : (txnStep c it.1 it.2).txn = some (sqlitePut w it.1 it.2) := by
      simp [txnStep, h]
    have hcom : (txnStep c it.1 it.2).committed = c.committed := by
      simp [txnStep, h]
    match failAt with
    | some 0 =>
      refine ⟨rfl, w, h, ?_⟩
      intro hfalse
      simp [runFlushItems] at hfalse
    | some (n + 1) =>
      obtain ⟨h1, w2, h2, h3⟩ := ih (txnStep c it.1 it.2) _ (some n) hstep
      refine ⟨?_, w2, ?_, ?_⟩
      · show (runFlushItems (txnStep c it.1 it.2) rest (some n)).1.committed = _
        rw [h1, hcom]
      · exact h2
      · intro hfalse
        have := h3 hfalse
        simpa [applyItems] using this
    | none =>
      obtain ⟨h1, w2, h2, h3⟩ := ih (txnStep c it.1 it.2) _ none hstep
      refine ⟨?_, w2, ?_, ?_⟩
      · show (runFlushItems (txnStep c it.1 it.2) rest none).1.committed = _
        rw [h1, hcom]
      · exact h2
      · intro hfalse
        have := h3 hfalse
        simpa [applyItems] using this

/-- Key/value store lemma: memPut at a different key does not change a
lookup. -/
theorem memGet_memPut_ne (db : DB) (k0 : KsKey) (v0 : Bytes) (k : KsKey)
    (h : k0 ≠ k) : memGet (memPut db k0 v0) k = memGet db k := by
  induction db with
  | nil => simp [memGet, memPut, dbLookup, h]
  | cons hd tl ih =>
    obtain ⟨k1, v1⟩ := hd
    by_cases hk : k1 = k0
    · subst hk
      simp [memGet, memPut, dbLookup, h]
    · by_cases hk2 : k1 = k
      · have hne : k ≠ k0 := fun e => h e.symm
        subst hk2
        simp [memGet, memPut, dbLookup, hk, hne]
      · simpa [memGet, memPut, dbLookup, hk, hk2] using ih

/-- Replay lemma: keys outside the buffer are untouched by the in-memory
batch flush. -/
theorem memFlushBatch_not_mem (buf : DB) :
    ∀ (store : DB) (k : KsKey), k ∉ buf.map Prod.fst →
    memGet (memFlushBatch store buf) k = memGet store k := by
  induction buf with
  | nil => intro store k _; rfl
  | cons hd tl ih =>
    intro store k hk
    simp only [List.map_cons, List.mem_cons] at hk
    push_neg at hk
    have hstep : memFlushBatch store (hd :: tl)
        = memFlushBatch (memPut store hd.1 hd.2) tl := rfl
    rw [hstep, ih _ k hk.2, memGet_memPut_ne _ _ _ _ (fun h => hk.1 h.symm)]

/-- Replay lemma: a buffered pair is visible after the in-memory batch
flush, provided the buffer holds one value per key (as the per-keyspace maps
of MemoryWriteBatch do). -/
theorem memFlushBatch_mem (buf : DB) :
    ∀ (store : DB) (k : KsKey) (v : Bytes), (buf.map Prod.fst).Nodup →
    (k, v) ∈ buf → memGet (memFlushBatch store buf) k = some v := by
  induction buf with
  | nil => intro store k v _ hmem; simp at hmem
  | cons hd tl ih =>
    intro store k v hnodup hmem
    simp only [List.map_cons, List.nodup_cons] at hnodup
    have hstep : memFlushBatch store (hd :: tl)
        = memFlushBatch (memPut store hd.1 hd.2) tl := rfl
    rcases List.mem_cons.mp hmem with heq | htl
    · have hk : hd.1 = k := by rw [← heq]
      have hv : hd.2 = v := by rw [← heq]
      have hnot : k ∉ tl.map Prod.fst := by
        rw [← hk]; exact hnodup.1
      rw [hstep, memFlushBatch_not_mem tl _ k hnot, ← hk, ← hv,
        memGet_memPut_self]
    · rw [hstep]
      exact ih _ k v hnodup.2 htl

/-- Claim C6: a write batch accumulates puts across keyspaces and applies
them atomically on flush.  For the SQLite backend, an exception thrown by
any statement inside flush triggers a rollback, after which no key of the
batch is visible and the committed state is pointwise unchanged; a clean
flush commits exactly the replay of every buffered item.  For the in-memory
backend, flush replays the buffered pairs into the store map. -/
theorem c6_writeBatch_atomic (c : SqliteConn) (b : SqliteWriteBatch)
    (failAt : Option Nat) (store buf : DB)
    (hbuf : (buf.map Prod.fst).Nodup) :
    ((sqliteFlush c b failAt).2 = true →
      ∀ k, dbLookup (sqliteFlush c b failAt).1.committed k
        = dbLookup c.committed k)
    ∧ ((sqliteFlush c b failAt).2 = false →
      (sqliteFlush c b failAt).1.committed
        = applyItems c.committed (flushItems b))
    ∧ (∀ k v, (k, v) ∈ buf → memGet (memFlushBatch store buf) k = some v) := by
  have hbegin : (beginTxn c).txn = some c.committed := rfl
  obtain ⟨hcom, w2, htxn, hval⟩ :=
    runFlushItems_preserves (flushItems b) (beginTxn c) c.committed failAt hbegin
  refine ⟨?_, ?_, fun k v hmem => memFlushBatch_mem buf store k v hbuf hmem⟩
  · intro hthrew
    cases hrun : runFlushItems (beginTxn c) (flushItems b) failAt with
    | mk c2 threw =>
      cases threw with
      | true =>
        have hres : sqliteFlush c b failAt = (rollbackTxn c2, true) := by
          simp [sqliteFlush, hrun]
        intro k
        rw [hres]
        have hc2 : c2.committed = c.committed := by
          have h0 := hcom
          rw [hrun] at h0
          exact h0
        simp [rollbackTxn, hc2]
      | false =>
        have hres : sqliteFlush c b failAt = (commitTxn c2, false) := by
          simp [sqliteFlush, hrun]
        rw [hres] at hthrew
        simp at hthrew
  · intro hclean
    cases hrun : runFlushItems (beginTxn c) (flushItems b) failAt with
    | mk c2 threw =>
      cases threw with
      | true =>
        have hres : sqliteFlush c b failAt = (rollbackTxn c2, true) := by
          simp [sqliteFlush, hrun]
        rw [hres] at hclean
        simp at hclean
      | false =>
        have hres : sqliteFlush c b failAt = (commitTxn c2, false) := by
          simp [sqliteFlush, hrun]
        rw [hrun] at htxn hval
        have hw2 : w2 = applyItems c.committed (flushItems b) := hval rfl
        have htxn2 : c2.txn = some w2 := htxn
        rw [hres]
        simp [commitTxn, htxn2, hw2]

/-- Witness for C6 at concrete inputs: a batch holding one pair in keyspace 0
and one in keyspace 1, flushed onto an empty connection; a failure at the
first statement leaves the store empty, a clean flush applies both pairs, and
the in-memory replay makes a buffered pair visible. -/
theorem c6_writeBatch_atomic_witness :
    (sqliteFlush ⟨[], none⟩ ⟨[[([1], [2])], [([3], [4])]]⟩ (some 0)).1.committed
      = []
    ∧ (sqliteFlush ⟨[], none⟩ ⟨[[([1], [2])], [([3], [4])]]⟩ none).1.committed
      = [((0, [1]), [2]), ((1, [3]), [4])]
    ∧ memGet (memFlushBatch [] [((0, [1]), [2])]) (0, [1]) = some [2] := by
  have h0 := c6_writeBatch_atomic ⟨[], none⟩ ⟨[[([1], [2])], [([3], [4])]]⟩
    (some 0) [] [((0, [1]), [2])] (by decide)
  refine ⟨?_, ?_, h0.2.2 (0, [1]) [2] (by decide)⟩
  · have hthrew : (sqliteFlush ⟨[], none⟩ ⟨[[([1], [2])], [([3], [4])]]⟩
        (some 0)).2 = true := by decide
    have h1 := h0.1 hthrew ((0 : Nat), ([1] : Bytes))
    decide
  · have h1 := c6_writeBatch_atomic ⟨[], none⟩ ⟨[[([1], [2])], [([3], [4])]]⟩
      none [] [((0, [1]), [2])] (by decide)
    have hclean : (sqliteFlush ⟨[], none⟩ ⟨[[([1], [2])], [([3], [4])]]⟩
        none).2 = false := by decide
    rw [h1.2.1 hclean]
    decide

/-- Hex lemma: decoding the digit of a value below 16 recovers the value. -/
theorem hexVal_hexDigit (n : Nat) (h : n < 16) : hexVal (hexDigit n) = some n := by
  interval_cases n <;> rfl

/-- Hex lemma: a hex digit is a digit or lowercase letter code, never 112. -/
theorem hexDigit_ne_112 (n : Nat) (h : n < 16) : hexDigit n ≠ 112 := by
  unfold hexDigit
  split <;> omega

/-- Hex lemma: hexlify doubles the length. -/
theorem hexlify_length (bs : Bytes) : (hexlify bs).length = 2 * bs.length := by
  induction bs with
  | nil => rfl
  | cons b rest ih => simp [hexlify, ih]; omega

/-- Hex lemma: unhexlify halves the length. -/
theorem unhexlify_length :
    ∀ (s : List Nat) (bs : Bytes), unhexlify s = some bs → s.length = 2 * bs.length
  | [], bs, h => by
    simp [unhexlify] at h
    subst h
    rfl
  | [c], bs, h => by
    simp [unhexlify] at h
  | c1 :: c2 :: rest, bs, h => by
    unfold unhexlify at h
    cases hv1 : hexVal c1 with
    | none => rw [hv1] at h; simp at h
    | some hi =>
      cases hv2 : hexVal c2 with
      | none => rw [hv1, hv2] at h; simp at h
      | some lo =>
        cases hrest : unhexlify rest with
        | none => rw [hv1, hv2, hrest] at h; simp at h
        | some bs0 =>
          rw [hv1, hv2, hrest] at h
          simp only [Option.some.injEq] at h
          have ih := unhexlify_length rest bs0 hrest
          subst h
          simp [List.length]
          omega

/-- Hex round trip: unhexlify inverts hexlify on genuine bytes. -/
theorem unhexlify_hexlify (bs : Bytes) (h : ∀ b ∈ bs, b < 256) :
    unhexlify (hexlify bs) = some bs := by
  induction bs with
  | nil => rfl
  | cons b rest ih =>
    have hb : b < 256 := h b (.head rest)
    have hdiv : b / 16 < 16 := by omega
    have hmod : b % 16 < 16 := by omega
    have ih2 := ih (fun x hx => h x (.tail b hx))
    simp only [hexlify, unhexlify, hexVal_hexDigit _ hdiv, hexVal_hexDigit _ hmod, ih2]
    rw [Nat.div_add_mod]

/-- Rendering lemma: hex output never carries the proxy tag, whose first
character is the letter p. -/
theorem take6_hexlify_ne_proxyTag (b : Nat) (hb : b < 256) (l rest : List Nat) :
    ((hexlify (b :: l)) ++ rest).take 6 ≠ proxyTag := by
  intro heq
  have hhead : hexDigit (b / 16) = 112 := by
    have hcong := congrArg (fun t => t.headD 0) heq
    simpa [hexlify, proxyTag] using hcong
  exact hexDigit_ne_112 (b / 16) (by omega) hhead

/-- List lemma: the element right after a block of length n in an append. -/
theorem getD_append_cons :
    ∀ (l1 : List Nat) (x : Nat) (l2 : List Nat) (d : Nat),
    (l1 ++ x :: l2).getD l1.length d = x
  | [], x, l2, d => rfl
  | a :: t, x, l2, d => by
    simpa [List.getD] using getD_append_cons t x l2 d

/-- Claim C4, counterexample: a 32-byte indirect key (the indirect-key length
the claim names) renders as a proxy string of 70 characters, which
parseObjectId rejects, so the round trip fails. -/
theorem c4_roundTrip_counterexample :
    (List.replicate 32 0 : ObjectId).length = 32
    ∧ staticParseObjectId (staticRenderObjectId (List.replicate 32 0)) = none := by
  constructor
  · decide
  · decide

/-- Claim C4, amended: rendering then parsing recovers an object id for the
embedded forms, namely an id of exactly 20 bytes or of more than 20 bytes
with length other than 32; a 32-byte indirect key instead renders to a
70-character proxy string that parseObjectId rejects. -/
theorem c4_roundTrip_amended (id : ObjectId) (hb : ∀ b ∈ id, b < 256)
    (hlen : id.length = 20 ∨ (20 < id.length ∧ id.length ≠ 32)) :
    staticParseObjectId (staticRenderObjectId id) = some id := by
  rcases hlen with h20 | ⟨hgt, hne32⟩
  · have hrender : staticRenderObjectId id = hexlify id := by
      simp [staticRenderObjectId, tryParseEmbeddedProxyHash, h20]
    obtain ⟨b, tl, rfl⟩ : ∃ b tl, id = b :: tl := by
      cases id with
      | nil => simp at h20
      | cons b tl => exact ⟨b, tl, rfl⟩
    have htag : (hexlify (b :: tl)).take 6 ≠ proxyTag := by
      have := take6_hexlify_ne_proxyTag b (hb b (.head tl)) tl []
      simpa using this
    have hlen40 : (hexlify (b :: tl)).length = 40 := by
      rw [hexlify_length, h20]
    rw [hrender]
    simp [staticParseObjectId, htag, hlen40, unhexlify_hexlify _ hb,
      makeEmbeddedProxyHash2]
  · have hpath : id.drop 20 ≠ [] := by
      intro hnil
      rw [List.drop_eq_nil_iff] at hnil
      omega
    have hne20 : id.length ≠ 20 := by omega
    have hrender : staticRenderObjectId id
        = hexlify (id.take 20) ++ 58 :: id.drop 20 := by
      simp [staticRenderObjectId, tryParseEmbeddedProxyHash, hne32, hne20, hgt,
        hpath]
    have htakelen : (id.take 20).length = 20 := by
      simp [List.length_take]
      omega
    obtain ⟨b, tl, heq⟩ : ∃ b tl, id.take 20 = b :: tl := by
      cases htk : id.take 20 with
      | nil => rw [htk] at htakelen; simp at htakelen
      | cons b tl => exact ⟨b, tl, rfl⟩
    have hbmem : b ∈ id := by
      have : b ∈ id.take 20 := by rw [heq]; exact .head tl
      exact List.mem_of_mem_take this
    have hhexlen : (hexlify (id.take 20)).length = 40 := by
      rw [hexlify_length, htakelen]
    have htag : (hexlify (id.take 20) ++ 58 :: id.drop 20).take 6 ≠ proxyTag := by
      rw [heq]
      exact take6_hexlify_ne_proxyTag b (hb b hbmem) tl _
    have hslen : (hexlify (id.take 20) ++ 58 :: id.drop 20).length
        = id.length + 21 := by
      simp [List.length_append, hhexlen]
      omega
    have hget : (hexlify (id.take 20) ++ 58 :: id.drop 20).getD 40 0 = 58 := by
      have := getD_append_cons (hexlify (id.take 20)) 58 (id.drop 20) 0
      rwa [hhexlen] at this
    have htk40 : (hexlify (id.take 20) ++ 58 :: id.drop 20).take 40
        = hexlify (id.take 20) :=
      List.take_left' hhexlen
    have hdp41 : (hexlify (id.take 20) ++ 58 :: id.drop 20).drop 41
        = id.drop 20 := by
      have h40 : (hexlify (id.take 20) ++ 58 :: id.drop 20).drop 40
          = 58 :: id.drop 20 :=
        List.drop_left' hhexlen
      have := List.drop_drop 1 40 (hexlify (id.take 20) ++ 58 :: id.drop 20)
      rw [h40] at this
      simpa using this.symm
    have hbytes : ∀ x ∈ id.take 20, x < 256 :=
      fun x hx => hb x (List.mem_of_mem_take hx)
    rw [hrender]
    simp only [staticParseObjectId, htag, if_false, hslen, hget, htk40, hdp41,
      unhexlify_hexlify _ hbytes]
    have hc1 : ¬ (id.length + 21 = 40) := by omega
    have hc2 : ¬ (id.length + 21 < 41) := by omega
    simp [hc1, hc2, makeEmbeddedProxyHash1, List.take_append_drop]

/-- Witness for C4 amended at concrete inputs: a 20-byte id of 0xab bytes and
a 22-byte id round-trip. -/
theorem c4_roundTrip_amended_witness :
    staticParseObjectId (staticRenderObjectId (List.replicate 20 171))
      = some (List.replicate 20 171)
    ∧ staticParseObjectId (staticRenderObjectId (List.replicate 22 5))
      = some (List.replicate 22 5) := by
  constructor
  · exact c4_roundTrip_amended (List.replicate 20 171) (by decide) (by decide)
  · exact c4_roundTrip_amended (List.replicate 22 5) (by decide) (by decide)

/-- Claim C9, counterexample: a default-constructed root id renders as the
20-byte all-zero binary string (the decoded null hash), not as the 40
character all-zero hex string that the claim states. -/
theorem c9_renderRootId_counterexample :
    renderRootId [] = some (List.replicate 20 0)
    ∧ some (List.replicate 20 0) ≠ some zeroHashHex := by
  constructor
  · decide
  · decide

/-- Claim C9, amended: a default-constructed root id renders as the 20-byte
all-zero binary form of the null hash; parseRootId accepts both a 20-byte
binary and a 40-character hex revision id and canonicalizes either to the
40-character hex form. -/
theorem c9_rootId_amended (s : List Nat) :
    renderRootId [] = some (List.replicate 20 0)
    ∧ (s.length = 20 →
        parseRootId s = some (hexlify s) ∧ (hexlify s).length = 40)
    ∧ (∀ bs : Bytes, s.length = 40 → unhexlify s = some bs →
        parseRootId s = some (hexlify bs) ∧ (hexlify bs).length = 40) := by
  refine ⟨by decide, ?_, ?_⟩
  · intro h20
    constructor
    · simp [parseRootId, hash20FromThrift, h20]
    · rw [hexlify_length, h20]
  · intro bs h40 hdec
    have hbs : bs.length = 20 := by
      have := unhexlify_length s bs hdec
      omega
    constructor
    · simp [parseRootId, hash20FromThrift, h40, hdec]
    · rw [hexlify_length, hbs]

/-- Witness for C9 amended at concrete inputs: the 20-byte binary form of
0xff bytes and the 40-character hex form of the zero hash both canonicalize
to 40-character hex. -/
theorem c9_rootId_amended_witness :
    parseRootId (List.replicate 20 255)
      = some (hexlify (List.replicate 20 255))
    ∧ parseRootId zeroHashHex = some (hexlify (List.replicate 20 0)) := by
  constructor
  · exact ((c9_rootId_amended (List.replicate 20 255)).2.1 (by decide)).1
  · exact ((c9_rootId_amended zeroHashHex).2.2 (List.replicate 20 0)
      (by decide) (by decide)).1

/-- Claim C10: with the fetchHgAuxMetadata config flag off, a blob-aux
request whose local aux-data lookup misses resolves with a null datum and
origin NotFetched, and nothing is enqueued (so the native adapter is never
contacted remotely for it). -/
theorem c10_auxData_flag_off (localAux queueFetch : Node → Option Aux)
    (n : Node) (h : localAux n = none) :
    getBlobAuxData false localAux queueFetch n = (⟨none, .NotFetched⟩, []) := by
  simp [getBlobAuxData, h, getBlobAuxDataEnqueue]

/-- Witness for C10 at concrete inputs: node [0] with an empty local view. -/
theorem c10_auxData_flag_off_witness :
    getBlobAuxData false (fun _ => none) (fun _ => some [1]) [0]
      = (⟨none, .NotFetched⟩, []) :=
  c10_auxData_flag_off (fun _ => none) (fun _ => some [1]) [0] rfl

/-- Claim C7, counterexample: the drop loop checks only the blob and tree
request types, so a pending blob-aux request's sink is left unfulfilled
rather than failed with the dropped message. -/
theorem c7_drop_counterexample :
    ((dropAllPendingRequestsFromQueue [{ kind := .blobAux }]).1.map
        (fun r => r.sink)) = [none]
    ∧ (none : Option SinkValue) ≠ some (.failedWith droppedMessage) := by
  constructor
  · rfl
  · decide

/-- Claim C7, amended: draining the queue returns the number of pending
requests of every kind, and fails each unfulfilled blob or tree sink with
the dropped message, but blob-aux and tree-aux requests pass through with
their sinks untouched. -/
theorem c7_drop_amended (queue : List PendingReq) :
    (dropAllPendingRequestsFromQueue queue).2 = queue.length
    ∧ ∀ r ∈ queue,
        ((r.kind = .blob ∨ r.kind = .tree) → r.sink = none →
          { r with sink := some (.failedWith droppedMessage) }
            ∈ (dropAllPendingRequestsFromQueue queue).1)
        ∧ ((r.kind = .blobAux ∨ r.kind = .treeAux) →
          r ∈ (dropAllPendingRequestsFromQueue queue).1) := by
  have hmap : (dropAllPendingRequestsFromQueue queue).1
      = queue.map (fun r =>
          match r.kind with
          | .blob => dropBlobImportRequest r
          | .tree => dropTreeImportRequest r
          | .blobAux => r
          | .treeAux => r) := rfl
  refine ⟨rfl, ?_⟩
  intro r hr
  constructor
  · intro hk hs
    have himg := List.mem_map_of_mem (fun r : PendingReq =>
        match r.kind with
        | .blob => dropBlobImportRequest r
        | .tree => dropTreeImportRequest r
        | .blobAux => r
        | .treeAux => r) hr
    rw [hmap]
    rcases hk with hk | hk <;>
      simpa [hk, dropBlobImportRequest, dropTreeImportRequest, hs] using himg
  · intro hk
    have himg := List.mem_map_of_mem (fun r : PendingReq =>
        match r.kind with
        | .blob => dropBlobImportRequest r
        | .tree => dropTreeImportRequest r
        | .blobAux => r
        | .treeAux => r) hr
    rw [hmap]
    rcases hk with hk | hk <;> simpa [hk] using himg

/-- Witness for C7 amended at concrete inputs: a queue of one unfulfilled
blob request and one unfulfilled tree-aux request; the count is 2, the blob
sink fails and the tree-aux request passes through. -/
theorem c7_drop_amended_witness :
    (dropAllPendingRequestsFromQueue
        [{ kind := .blob }, { kind := .treeAux }]).2 = 2
    ∧ ({ kind := .blob, sink := some (.failedWith droppedMessage) } : PendingReq)
        ∈ (dropAllPendingRequestsFromQueue
            [{ kind := .blob }, { kind := .treeAux }]).1
    ∧ ({ kind := .treeAux } : PendingReq)
        ∈ (dropAllPendingRequestsFromQueue
            [{ kind := .blob }, { kind := .treeAux }]).1 := by
  have h := c7_drop_amended [{ kind := .blob }, { kind := .treeAux }]
  refine ⟨h.1, ?_, ?_⟩
  · exact (h.2 { kind := .blob } (by decide)).1 (Or.inl rfl) rfl
  · exact (h.2 { kind := .treeAux } (by decide)).2 (Or.inr rfl)

/-- Pipeline lemma: in the aux pipeline every sink ends fulfilled, and a
request missed by both the LocalOnly and the RemoteOnly stage is resolved
with the null value rather than an error. -/
theorem processAux_resolution (localView remoteView : Node → Option Aux)
    (reqs : List AuxReq) (hinit : ∀ r ∈ reqs, r.promise = none) :
    ∀ r ∈ processAuxImportRequests localView remoteView reqs,
      r.promise.isSome
      ∧ (localView r.node = none → remoteView r.node = none →
          r.promise = some .nullValue) := by
  intro r hr
  unfold processAuxImportRequests at hr
  rcases List.mem_append.mp hr with hA | hB
  · rcases List.mem_map.mp hA with ⟨r1, hr1, rfl⟩
    rcases List.mem_filter.mp hr1 with ⟨hr1m, hr1s⟩
    rcases List.mem_map.mp hr1m with ⟨r0, hr0, heq⟩
    cases hv : localView r0.node with
    | none =>
      rw [hv] at heq
      simp only [] at heq
      subst heq
      rw [hinit r0 hr0] at hr1s
      simp at hr1s
    | some a =>
      rw [hv] at heq
      simp only [] at heq
      subst heq
      refine ⟨by simp, ?_⟩
      intro hnone
      simp [hv] at hnone
  · rcases List.mem_map.mp hB with ⟨r2, hr2, rfl⟩
    rcases List.mem_map.mp hr2 with ⟨r1, hr1, heq2⟩
    rcases List.mem_filter.mp hr1 with ⟨hr1m, hr1n⟩
    rcases List.mem_map.mp hr1m with ⟨r0, hr0, heq1⟩
    cases hvl : localView r0.node with
    | some a =>
      rw [hvl] at heq1
      simp only [] at heq1
      subst heq1
      simp at hr1n
    | none =>
      rw [hvl] at heq1
      simp only [] at heq1
      subst heq1
      cases hvr : remoteView r0.node with
      | some a =>
        rw [hvr] at heq2
        simp only [] at heq2
        subst heq2
        simp only [Option.isSome_some, if_true]
        refine ⟨by simp, ?_⟩
        intro _ hnone
        simp [hvr] at hnone
      | none =>
        rw [hvr] at heq2
        simp only [] at heq2
        subst heq2
        rw [hinit r0 hr0]
        simp [hinit r0 hr0]

/-- Claim C8: for both the blob-aux and the tree-aux pipeline, a request
left unfulfilled by the LocalOnly and RemoteOnly stages is resolved with the
null value rather than an error, and every sink ends fulfilled (the pipeline
contains no fetch of the underlying blob or tree; the source comments that
triggering one from a worker could deadlock the pool). -/
theorem c8_aux_null_resolution (localView remoteView : Node → Option Aux)
    (reqs : List AuxReq) (hinit : ∀ r ∈ reqs, r.promise = none) :
    (∀ r ∈ processBlobAuxImportRequests localView remoteView reqs,
        r.promise.isSome
        ∧ (localView r.node = none → remoteView r.node = none →
            r.promise = some .nullValue))
    ∧ (∀ r ∈ processTreeAuxImportRequests localView remoteView reqs,
        r.promise.isSome
        ∧ (localView r.node = none → remoteView r.node = none →
            r.promise = some .nullValue)) :=
  ⟨processAux_resolution localView remoteView reqs hinit,
   processAux_resolution localView remoteView reqs hinit⟩

/-- Witness for C8 at concrete inputs: a single request on node [0] with
both views empty ends resolved with the null value in both pipelines. -/
theorem c8_aux_null_resolution_witness :
    (⟨[0], [0], 0, some .nullValue, none⟩ : AuxReq)
      ∈ processBlobAuxImportRequests (fun _ => none) (fun _ => none)
        [⟨[0], [0], 0, none, none⟩]
    ∧ (some AuxValue.nullValue).isSome = true := by
  have h := c8_aux_null_resolution (fun _ => none) (fun _ => none)
      [⟨[0], [0], 0, none, none⟩]
      (fun r hr => by
        simp only [List.mem_singleton] at hr
        rw [hr])
  have hmem : (⟨[0], [0], 0, some .nullValue, none⟩ : AuxReq)
      ∈ processBlobAuxImportRequests (fun _ => none) (fun _ => none)
        [⟨[0], [0], 0, none, none⟩] := by decide
  exact ⟨hmem, (h.1 _ hmem).1⟩

/-- Pipeline lemma: every request handed to the RemoteOnly batch was missed
by the LocalOnly view and is still unfulfilled. -/
theorem retryRequestList_local_miss (localView : Node → Option Blob)
    (reqs : List ImportReq) (hinit : ∀ r ∈ reqs, r.promise = none) :
    ∀ q ∈ retryRequestList localView reqs,
      localView q.node = none ∧ q.promise = none := by
  intro q hq
  unfold retryRequestList at hq
  rcases List.mem_filter.mp hq with ⟨hqm, hqn⟩
  unfold getBlobBatchRun at hqm
  rcases List.mem_map.mp hqm with ⟨r0, hr0, heq⟩
  cases hv : localView r0.node with
  | some b =>
    rw [hv] at heq
    simp only [] at heq
    subst heq
    simp at hqn
  | none =>
    rw [hv] at heq
    simp only [] at heq
    subst heq
    exact ⟨hv, hinit r0 hr0⟩

/-- Claim C1, counterexample: with every stage missing except the RemoteOnly
fallback of the single-item retry, the retry succeeds and the code records
fetched-source Remote with result SuccessInRetry, while the claim states
fetched-source Unknown. -/
theorem c1_cascade_counterexample :
    (processBlobImportRequests (fun _ => none) (fun _ => none) (fun _ => none)
        (fun _ => some [7]) [⟨[0], [0], 0, none, none, none⟩]).map
      (fun r => (r.fetchedSource, r.fetchResult))
      = [(some .Remote, some .SuccessInRetry)]
    ∧ FetchedSource.Remote ≠ FetchedSource.Unknown := by
  constructor
  · rfl
  · decide

/-- Claim C1, amended: in the three-stage pipeline with
allow-remote-in-one-batch off, a request fulfilled by the LocalOnly batch is
never handed to the RemoteOnly batch and is recorded Local/Success; one
fulfilled by the RemoteOnly batch is recorded Remote/Success; one fulfilled
only in the single-item retry is recorded with result SuccessInRetry and
fetched-source Local when the post-flush LocalOnly lookup hits, or Remote
when the RemoteOnly fallback hits (not Unknown, which the code reserves for
the allow-remote-in-one-batch mode). -/
theorem c1_cascade_amended
    (localView remoteView retryLocal retryRemote : Node → Option Blob)
    (reqs : List ImportReq) (hinit : ∀ r ∈ reqs, r.promise = none) :
    (∀ q ∈ retryRequestList localView reqs, localView q.node = none)
    ∧ ∀ r ∈ processBlobImportRequests localView remoteView retryLocal
          retryRemote reqs,
        (∀ b, localView r.node = some b →
          r.promise = some (some b) ∧ r.fetchedSource = some .Local
            ∧ r.fetchResult = some .Success)
        ∧ (∀ b, localView r.node = none → remoteView r.node = some b →
          r.promise = some (some b) ∧ r.fetchedSource = some .Remote
            ∧ r.fetchResult = some .Success)
        ∧ (∀ b, localView r.node = none → remoteView r.node = none →
          retryLocal r.node = some b →
          r.promise = some (some b) ∧ r.fetchedSource = some .Local
            ∧ r.fetchResult = some .SuccessInRetry)
        ∧ (∀ b, localView r.node = none → remoteView r.node = none →
          retryLocal r.node = none → retryRemote r.node = some b →
          r.promise = some (some b) ∧ r.fetchedSource = some .Remote
            ∧ r.fetchResult = some .SuccessInRetry) := by
  refine ⟨fun q hq => (retryRequestList_local_miss localView reqs hinit q hq).1,
    ?_⟩
  intro r hr
  unfold processBlobImportRequests at hr
  rcases List.mem_append.mp hr with hA | hB
  · unfold localFulfilledRequests at hA
    rcases List.mem_map.mp hA with ⟨r1, hr1, rfl⟩
    rcases List.mem_filter.mp hr1 with ⟨hr1m, hr1s⟩
    unfold getBlobBatchRun at hr1m
    rcases List.mem_map.mp hr1m with ⟨r0, hr0, heq⟩
    cases hv : localView r0.node with
    | none =>
      rw [hv] at heq
      simp only [] at heq
      subst heq
      rw [hinit r0 hr0] at hr1s
      simp at hr1s
    | some b0 =>
      rw [hv] at heq
      simp only [] at heq
      subst heq
      refine ⟨?_, ?_, ?_, ?_⟩ <;> intro b <;> simp [hv]
  · rcases List.mem_map.mp hB with ⟨r2, hr2, rfl⟩
    unfold getBlobBatchRun at hr2
    rcases List.mem_map.mp hr2 with ⟨r1, hr1, heq2⟩
    obtain ⟨hlmiss, hlnone⟩ := retryRequestList_local_miss localView reqs hinit
      r1 hr1
    cases hvr : remoteView r1.node with
    | some b0 =>
      rw [hvr] at heq2
      simp only [] at heq2
      subst heq2
      refine ⟨?_, ?_, ?_, ?_⟩ <;> intro b <;> simp [hlmiss, hvr]
    | none =>
      rw [hvr] at heq2
      simp only [] at heq2
      subst heq2
      rw [hlnone]
      simp only [Option.isSome_none, Bool.false_eq_true, if_false]
      unfold retryGetBlob
      cases hrl : retryLocal r1.node with
      | some b0 =>
        refine ⟨?_, ?_, ?_, ?_⟩ <;> intro b <;> simp [hlmiss, hvr, hrl]
      | none =>
        cases hrr : retryRemote r1.node with
        | some b0 =>
          refine ⟨?_, ?_, ?_, ?_⟩ <;> intro b <;> simp [hlmiss, hvr, hrl, hrr]
        | none =>
          refine ⟨?_, ?_, ?_, ?_⟩ <;> intro b <;> simp [hlmiss, hvr, hrl, hrr]

/-- Witness for C1 amended at concrete inputs: a single request on node [0]
with a LocalOnly hit resolves Local/Success. -/
theorem c1_cascade_amended_witness :
    (⟨[0], [0], 0, some (some [9]), some .Local, some .Success⟩ : ImportReq)
        ∈ processBlobImportRequests (fun _ => some [9]) (fun _ => none)
          (fun _ => none) (fun _ => none) [⟨[0], [0], 0, none, none, none⟩]
    ∧ (some (some ([9] : Blob)) = some (some [9])
        ∧ (some FetchedSource.Local = some FetchedSource.Local)
        ∧ (some FetchResult.Success = some FetchResult.Success)) := by
  have hmem : (⟨[0], [0], 0, some (some [9]), some .Local, some .Success⟩ :
      ImportReq) ∈ processBlobImportRequests (fun _ => some [9])
        (fun _ => none) (fun _ => none) (fun _ => none)
        [⟨[0], [0], 0, none, none, none⟩] := by decide
  have h := (c1_cascade_amended (fun _ => some [9]) (fun _ => none)
      (fun _ => none) (fun _ => none) [⟨[0], [0], 0, none, none, none⟩]
      (fun r hr => by
        simp only [List.mem_singleton] at hr
        rw [hr])).2 _ hmem
  exact ⟨hmem, h.1 [9] rfl⟩

/-- Grouping lemma: inserting a request either reuses its node id group or
appends a new key. -/
theorem insertReq_keys (m : List (Node × List ImportReq)) (req : ImportReq) :
    (insertReq m req).map Prod.fst
      = if req.node ∈ m.map Prod.fst then m.map Prod.fst
        else m.map Prod.fst ++ [req.node] := by
  induction m with
  | nil => simp [insertReq]
  | cons hd rest ih =>
    obtain ⟨n, g⟩ := hd
    by_cases hn : n = req.node
    · subst hn
      simp [insertReq]
    · have hne : req.node ≠ n := fun e => hn e.symm
      by_cases hmem : req.node ∈ rest.map Prod.fst
      · simp [insertReq, hn, ih, hmem, hne]
      · simp [insertReq, hn, ih, hmem, hne]

/-- Grouping lemma: insertion preserves distinctness of the node id keys. -/
theorem insertReq_keys_nodup (m : List (Node × List ImportReq))
    (req : ImportReq) (h : (m.map Prod.fst).Nodup) :
    ((insertReq m req).map Prod.fst).Nodup := by
  rw [insertReq_keys]
  by_cases hmem : req.node ∈ m.map Prod.fst
  · rw [if_pos hmem]
    exact h
  · rw [if_neg hmem]
    refine List.Nodup.append h (List.nodup_singleton _) ?_
    intro x hx hx2
    simp only [List.mem_singleton] at hx2
    subst hx2
    exact hmem hx

/-- Grouping lemma: the grouped map has distinct node id keys. -/
theorem buildRequestsMap_keys_nodup :
    ∀ (reqs : List ImportReq) (m : List (Node × List ImportReq)),
    (m.map Prod.fst).Nodup → ((buildRequestsMap reqs m).map Prod.fst).Nodup
  | [], _, h => h
  | req :: rest, m, h =>
    buildRequestsMap_keys_nodup rest (insertReq m req)
      (insertReq_keys_nodup m req h)

/-- Dedupe lemma: every emitted adapter request carries the group node id
and a cause outside the seen set. -/
theorem dedupeGroupByCause_mem (n : Node) :
    ∀ (g : List ImportReq) (seen : List Cause) (p : Node × Cause),
    p ∈ dedupeGroupByCause n g seen → p.1 = n ∧ p.2 ∉ seen
  | [], seen, p, hp => by simp [dedupeGroupByCause] at hp
  | req :: rest, seen, p, hp => by
    unfold dedupeGroupByCause at hp
    by_cases hc : req.cause ∈ seen
    · rw [if_pos hc] at hp
      exact dedupeGroupByCause_mem n rest seen p hp
    · rw [if_neg hc] at hp
      rcases List.mem_cons.mp hp with rfl | hp2
      · exact ⟨rfl, hc⟩
      · have h2 := dedupeGroupByCause_mem n rest (req.cause :: seen) p hp2
        exact ⟨h2.1, fun hs => h2.2 (List.mem_cons_of_mem _ hs)⟩

/-- Dedupe lemma: within a group, at most one adapter request per cause. -/
theorem dedupeGroupByCause_nodup (n : Node) :
    ∀ (g : List ImportReq) (seen : List Cause),
    (dedupeGroupByCause n g seen).Nodup
  | [], _ => List.nodup_nil
  | req :: rest, seen => by
    unfold dedupeGroupByCause
    by_cases hc : req.cause ∈ seen
    · rw [if_pos hc]
      exact dedupeGroupByCause_nodup n rest seen
    · rw [if_neg hc, List.nodup_cons]
      refine ⟨?_, dedupeGroupByCause_nodup n rest (req.cause :: seen)⟩
      intro hmem
      exact (dedupeGroupByCause_mem n rest (req.cause :: seen) _ hmem).2
        (List.mem_cons_self _ _)

/-- Flatten lemma: an emitted adapter request names a node id of the map. -/
theorem flattenRequests_mem_nodes :
    ∀ (m : List (Node × List ImportReq)) (p : Node × Cause),
    p ∈ flattenRequests m → p.1 ∈ m.map Prod.fst
  | [], p, hp => by simp [flattenRequests] at hp
  | (n, g) :: rest, p, hp => by
    unfold flattenRequests at hp
    rcases List.mem_append.mp hp with h1 | h2
    · have := (dedupeGroupByCause_mem n g [] p h1).1
      simp [this]
    · have := flattenRequests_mem_nodes rest p h2
      simp [this]

/-- Flatten lemma: with distinct keys the whole adapter request list has no
duplicate (node id, cause) pair. -/
theorem flattenRequests_nodup :
    ∀ (m : List (Node × List ImportReq)), (m.map Prod.fst).Nodup →
    (flattenRequests m).Nodup
  | [], _ => List.nodup_nil
  | (n, g) :: rest, h => by
    unfold flattenRequests
    simp only [List.map_cons, List.nodup_cons] at h
    refine List.Nodup.append (dedupeGroupByCause_nodup n g [])
      (flattenRequests_nodup rest h.2) ?_
    intro p hp1 hp2
    have e1 := (dedupeGroupByCause_mem n g [] p hp1).1
    have e2 := flattenRequests_mem_nodes rest p hp2
    rw [e1] at e2
    exact h.1 e2

/-- Unfolding equation for requestsGroup on a cons cell. -/
theorem requestsGroup_cons (a : Node) (g : List ImportReq)
    (rest : List (Node × List ImportReq)) (n : Node) :
    requestsGroup ((a, g) :: rest) n
      = if a = n then g else requestsGroup rest n := rfl

/-- Unfolding equation for insertReq on a cons cell. -/
theorem insertReq_cons (a : Node) (g : List ImportReq)
    (rest : List (Node × List ImportReq)) (req : ImportReq) :
    insertReq ((a, g) :: rest) req
      = if a = req.node then (a, g ++ [req]) :: rest
        else (a, g) :: insertReq rest req := rfl

/-- Grouping lemma: a freshly inserted request is in its node id group. -/
theorem mem_requestsGroup_insertReq_self (m : List (Node × List ImportReq))
    (req : ImportReq) : req ∈ requestsGroup (insertReq m req) req.node := by
  induction m with
  | nil => simp [insertReq, requestsGroup]
  | cons hd rest ih =>
    obtain ⟨n0, g⟩ := hd
    rw [insertReq_cons]
    by_cases hn : n0 = req.node
    · rw [if_pos hn, requestsGroup_cons, if_pos hn]
      exact List.mem_append_right _ (List.mem_singleton_self req)
    · rw [if_neg hn, requestsGroup_cons, if_neg hn]
      exact ih

/-- Grouping lemma: insertion never removes a request from a group. -/
theorem mem_requestsGroup_insertReq_mono (m : List (Node × List ImportReq))
    (req q : ImportReq) (n : Node) (h : q ∈ requestsGroup m n) :
    q ∈ requestsGroup (insertReq m req) n := by
  induction m with
  | nil => simp [requestsGroup] at h
  | cons hd rest ih =>
    obtain ⟨n0, g⟩ := hd
    rw [requestsGroup_cons] at h
    rw [insertReq_cons]
    by_cases h0 : n0 = req.node
    · rw [if_pos h0]
      by_cases hn : n0 = n
      · rw [if_pos hn] at h
        rw [requestsGroup_cons, if_pos hn]
        exact List.mem_append_left _ h
      · rw [if_neg hn] at h
        rw [requestsGroup_cons, if_neg hn]
        exact h
    · rw [if_neg h0]
      by_cases hn : n0 = n
      · rw [if_pos hn] at h
        rw [requestsGroup_cons, if_pos hn]
        exact h
      · rw [if_neg hn] at h
        rw [requestsGroup_cons, if_neg hn]
        exact ih h

/-- Grouping lemma: group membership is preserved through the whole build. -/
theorem mem_requestsGroup_buildRequestsMap :
    ∀ (reqs : List ImportReq) (m : List (Node × List ImportReq))
      (q : ImportReq) (n : Node), q ∈ requestsGroup m n →
    q ∈ requestsGroup (buildRequestsMap reqs m) n
  | [], _, _, _, h => h
  | req :: rest, m, q, n, h =>
    mem_requestsGroup_buildRequestsMap rest (insertReq m req) q n
      (mem_requestsGroup_insertReq_mono m req q n h)

/-- Grouping lemma: every import request ends up in the group of its node
id. -/
theorem buildRequestsMap_complete :
    ∀ (reqs : List ImportReq) (m : List (Node × List ImportReq))
      (req : ImportReq), req ∈ reqs →
    req ∈ requestsGroup (buildRequestsMap reqs m) req.node
  | [], _, _, h => by simp at h
  | r0 :: rest, m, req, h => by
    rcases List.mem_cons.mp h with rfl | h2
    · exact mem_requestsGroup_buildRequestsMap rest (insertReq m req) req
        req.node (mem_requestsGroup_insertReq_self m req)
    · exact buildRequestsMap_complete rest (insertReq m r0) req h2

/-- Claim C2, counterexample: two requests with the same node id but
different causes both reach the adapter request list, so the adapter can see
two requests for one content id in one batch. -/
theorem c2_batch_counterexample :
    ((prepareRequests [⟨[1], [9], 0, none, none, none⟩,
        ⟨[2], [9], 1, none, none, none⟩]).2.map Prod.fst) = [[9], [9]]
    ∧ 2 ≤ ((prepareRequests [⟨[1], [9], 0, none, none, none⟩,
        ⟨[2], [9], 1, none, none, none⟩]).2.map Prod.fst).count [9] := by
  constructor
  · decide
  · decide

/-- Claim C2, amended: one batch call hands the adapter at most one request
per distinct (content id, fetch cause) pair - so at most one per content id
among requests sharing a cause; every import request of the batch is in the
group of its node id, and when a fetch for a node id completes every request
of that group is resolved with the same shared result. -/
theorem c2_batch_amended (reqs : List ImportReq) (b : Blob) :
    (prepareRequests reqs).2.Nodup
    ∧ (∀ req ∈ reqs, req ∈ requestsGroup (prepareRequests reqs).1 req.node)
    ∧ (∀ n : Node, ∀ q ∈ resolveGroup (requestsGroup (prepareRequests reqs).1 n) b,
        q.promise = some (some b)) := by
  refine ⟨?_, ?_, ?_⟩
  · exact flattenRequests_nodup (buildRequestsMap reqs [])
      (buildRequestsMap_keys_nodup reqs [] (by simp))
  · intro req hreq
    exact buildRequestsMap_complete reqs [] req hreq
  · intro n q hq
    rcases List.mem_map.mp hq with ⟨q0, _, rfl⟩
    rfl

/-- Witness for C2 amended at concrete inputs: one request on node [9] lands
in its group and the callback resolves it with the shared blob [5]. -/
theorem c2_batch_amended_witness :
    (⟨[1], [9], 0, some (some [5]), none, none⟩ : ImportReq)
      ∈ resolveGroup (requestsGroup (prepareRequests
          [⟨[1], [9], 0, none, none, none⟩]).1 [9]) [5]
    ∧ (⟨[1], [9], 0, some (some [5]), none, none⟩ : ImportReq).promise
        = some (some [5]) := by
  have h := c2_batch_amended [⟨[1], [9], 0, none, none, none⟩] [5]
  have hq : (⟨[1], [9], 0, some (some [5]), none, none⟩ : ImportReq)
      ∈ resolveGroup (requestsGroup (prepareRequests
          [⟨[1], [9], 0, none, none, none⟩]).1 [9]) [5] := by decide
  exact ⟨hq, h.2.2 [9] _ hq⟩

end SaplingFS
